import Mathlib

/-!
# hikyuu: StrategyBase (hikyuu_cpp/hikyuu/strategy/StrategyBase.cpp)

A shallow embedding of the strategy runner: the startup sequence of run, the two
callbacks registered with the spot agent (receivedSpot, finishReceivedSpot) and the
consumer loop _startEventLoop.

Conventions of the embedding.

* The object is a record StrategyBase; every member function takes the record and
  returns the new record.
* The collaborators that live outside StrategyBase.cpp (IniParser, StockManager,
  Stock, the strategy hooks) are taken as parameters: a StockManager value is the
  registry as one call observes it, so a later call may be given another value.
* Each function is the sequential semantics of one call; the interleaving of the
  feed thread with the consumer thread is not part of the embedding.
* Datetime is an optional natural number, the absent value being Null<Datetime>().
-/

namespace hku

/-! ## Collaborators declared outside StrategyBase.cpp -/

/-- KQuery::KType is a string in the source. -/
abbrev KType := String

/-- The constant KQuery::DAY. -/
def KQuery.DAY : KType := "DAY"

/-- A point in time, or none for Null<Datetime>() (also the value of a
default-constructed Datetime). -/
abbrev Datetime := Option Nat

/-- The value Null<Datetime>(). -/
def Datetime.null : Datetime := none

/-- A bar; only its timestamp is read by StrategyBase.cpp. -/
structure KRecord where
  datetime : Datetime
deriving DecidableEq, Repr

/-- The null bar, returned for a position outside the series. -/
def KRecord.null : KRecord := ⟨Datetime.null⟩

abbrev KRecordList := List KRecord

/-- An instrument handle; m_data is none for the null Stock. -/
structure Stock where
  m_data : Option Nat
deriving DecidableEq, Repr

/-- Stock::isNull. -/
def Stock.isNull (stk : Stock) : Bool := stk.m_data.isNone

/-- A received tick; market and code identify the instrument, the quote fields are
carried in quote (they are never read by StrategyBase.cpp). -/
structure SpotRecord where
  market : String
  code : String
  quote : List Int
deriving DecidableEq, Repr

/-- The data registry as one call observes it: the lookup of a code (the free
function getStock, answering the null Stock for an unknown code) and the current bar
series of every instrument and timeframe. -/
structure StockManager where
  getStock : String → Stock
  kdata : Stock → KType → KRecordList

/-- Modelled from the spec: Stock::getCount(ktype) is defined outside StrategyBase.cpp;
it is the bar count of the series (handle.getBarCount(timeframe)). -/
def Stock.getCount (sm : StockManager) (stk : Stock) (ktype : KType) : Nat :=
  (sm.kdata stk ktype).length

/-- Modelled from the spec: Stock::getKRecord(pos, ktype) is defined outside
StrategyBase.cpp; it is the bar at a position of the series (handle.getBar(index,
timeframe)), the null bar outside the series. -/
def Stock.getKRecord (sm : StockManager) (stk : Stock) (pos : Nat) (ktype : KType) : KRecord :=
  (sm.kdata stk ktype).getD pos KRecord.null

/-- Modelled from the spec: Stock::getKRecordList is defined outside StrategyBase.cpp;
for the query KQueryByIndex(0, Null<int64_t>(), ktype) it is the whole series
(handle.getBarSeries(timeframe, range)). -/
def Stock.getKRecordList (sm : StockManager) (stk : Stock) (ktype : KType) : KRecordList :=
  sm.kdata stk ktype

/-- The timestamp of the most recent bar of a series, none when the series is empty. -/
def Stock.lastDatetime (sm : StockManager) (stk : Stock) (ktype : KType) : Option Datetime :=
  (sm.kdata stk ktype).getLast?.map KRecord.datetime

/-- A value held by a Parameter. -/
inductive ParamValue where
  | str (v : String)
  | bool (v : Bool)
  | int (v : Int)
deriving DecidableEq, Repr

/-- Parameter: named values; set overwrites the value of a name. -/
abbrev Parameter := List (String × ParamValue)

def Parameter.set (p : Parameter) (name : String) (v : ParamValue) : Parameter :=
  (name, v) :: p.filter (fun e => e.1 != name)

/-- IniParser after a successful read. An accessor that throws answers error. -/
structure IniParser where
  hasSection : String → Bool
  getOptionList : String → Except String (List String)
  get : String → String → String → Except String String
  getInt : String → String → Except String Int

/-- StrategyContext: the caller-supplied code list and timeframe list. -/
structure StrategyContext where
  m_stockCodeList : List String
  m_ktypeList : List KType
deriving DecidableEq, Repr

def StrategyContext.getStockCodeList (c : StrategyContext) : List String := c.m_stockCodeList

def StrategyContext.getKTypeList (c : StrategyContext) : List KType := c.m_ktypeList

/-- The strategy hooks, supplied by the author of the strategy. A hook reaches the
runner only through its public setters, so it is a function on the context. -/
structure Hooks where
  init : StrategyContext → StrategyContext
  onTick : StrategyContext → StrategyContext
  onBar : KType → StrategyContext → StrategyContext

/-- The environment of one run: what reading a configuration file gives, and the
registry that StockManager::init builds from the five parameter sets and the context. -/
structure Env where
  read : String → Except String IniParser
  sm_init : Parameter → Parameter → Parameter → Parameter → Parameter → StrategyContext →
    StockManager

/-- The call sm.init(baseParam, blockParam, kdataParam, preloadParam, hkuParam,
m_context) of run, answering the registry it builds. -/
def Env.init_sm (env : Env) (base block kdata preload hkup : Parameter)
    (context : StrategyContext) : StockManager :=
  env.sm_init base block kdata preload hkup context

/-- to_lower on a string. -/
def to_lower (s : String) : String := String.mk (s.data.map Char.toLower)

/-! ## Maps (std::unordered_map) -/

/-- A map with at most one entry per key. -/
abbrev Map (κ ν : Type) := κ → Option ν

def Map.empty {κ ν : Type} : Map κ ν := fun _ => none

/-- The assignment m[k] = v. -/
def Map.set {κ ν : Type} [DecidableEq κ] (m : Map κ ν) (k : κ) (v : ν) : Map κ ν :=
  fun j => if j = k then some v else m j

/-- The read m[k]: the value of the entry, a missing entry being first inserted with
the default-constructed value. -/
def Map.index {κ ν : Type} [DecidableEq κ] (m : Map κ ν) (k : κ) (dflt : ν) : ν × Map κ ν :=
  match m k with
  | some v => (v, m)
  | none => (dflt, Map.set m k dflt)

/-! ## The runner -/

/-- A queued task: the null task (the sentinel) or one of the two closures that
StrategyBase.cpp builds. -/
inductive event_type where
  | nullTask
  | onTick
  | onBar (ktype : KType)
deriving DecidableEq, Repr

def event_type.isNullTask : event_type → Bool
  | .nullTask => true
  | _ => false

/-- An invocation of a strategy hook. -/
inductive HookCall where
  | init
  | onTick
  | onBar (ktype : KType)
deriving DecidableEq, Repr

/-- The members of StrategyBase, with ms_keep_running (a static member) and calls,
the record of the hook invocations made so far. -/
structure StrategyBase where
  m_name : String
  m_config_file : String
  m_context : StrategyContext
  m_stock_list : List Stock
  m_ref_last_time : Map KType Datetime
  m_spot_map : Map Stock SpotRecord
  m_event_queue : List event_type
  ms_keep_running : Bool
  calls : List HookCall

/-- The constructor StrategyBase(name, config_file): every container starts empty and
ms_keep_running is true. -/
def StrategyBase.mk2 (name config_file : String) : StrategyBase :=
  { m_name := name, m_config_file := config_file,
    m_context := ⟨[], []⟩,
    m_stock_list := [], m_ref_last_time := Map.empty, m_spot_map := Map.empty,
    m_event_queue := [], ms_keep_running := true, calls := [] }

/-- The value of SIGINT. -/
def SIGINT : Int := 2

/-- StrategyBase::sig_handler. -/
def StrategyBase.sig_handler (sig : Int) (self : StrategyBase) : StrategyBase :=
  if sig = SIGINT then { self with ms_keep_running := false } else self

/-- Modelled from the spec: the accessor StrategyBase::getKTypeList is declared in
StrategyBase.h, which is not among the sources; it is the accessor of the timeframe
list of the context, the list that run reads as m_context.getKTypeList(). -/
def StrategyBase.getKTypeList (self : StrategyBase) : List KType :=
  self.m_context.getKTypeList

/-- Modelled from the spec: the accessor StrategyBase::getStockCodeList is declared in
StrategyBase.h, which is not among the sources; it is the accessor of the
caller-supplied code list of the context. -/
def StrategyBase.getStockCodeList (self : StrategyBase) : List String :=
  self.m_context.getStockCodeList

/-- Modelled from the spec: StrategyBase::event is declared in StrategyBase.h, which is
not among the sources; it pushes the task at the back of the event queue. -/
def StrategyBase.event (self : StrategyBase) (task : event_type) : StrategyBase :=
  { self with m_event_queue := self.m_event_queue ++ [task] }

/-- The virtual call init(). -/
def StrategyBase.init (hooks : Hooks) (self : StrategyBase) : StrategyBase :=
  { self with m_context := hooks.init self.m_context, calls := self.calls ++ [HookCall.init] }

/-- The virtual call onTick(). -/
def StrategyBase.onTick (hooks : Hooks) (self : StrategyBase) : StrategyBase :=
  { self with m_context := hooks.onTick self.m_context,
              calls := self.calls ++ [HookCall.onTick] }

/-- The virtual call onBar(ktype). -/
def StrategyBase.onBar (hooks : Hooks) (ktype : KType) (self : StrategyBase) : StrategyBase :=
  { self with m_context := hooks.onBar ktype self.m_context,
              calls := self.calls ++ [HookCall.onBar ktype] }

/-- The call task() of a task that is not the null task. -/
def event_type.call (hooks : Hooks) (task : event_type) (self : StrategyBase) : StrategyBase :=
  match task with
  | .nullTask => self
  | .onTick => self.onTick hooks
  | .onBar ktype => self.onBar hooks ktype

/-- StrategyBase::receivedSpot. -/
def StrategyBase.receivedSpot (sm : StockManager) (self : StrategyBase) (spot : SpotRecord) :
    StrategyBase :=
  let stk := sm.getStock (spot.market ++ spot.code)
  if !stk.isNull then
    { self with m_spot_map := Map.set self.m_spot_map stk spot }
  else
    self

/-- One turn of the loop over the timeframes in finishReceivedSpot (lines 167-174). -/
def StrategyBase.finishReceivedSpot_ktype (sm : StockManager) (ref_stk : Stock)
    (self : StrategyBase) (ktype : KType) : StrategyBase :=
  let count := ref_stk.getCount sm ktype
  if count > 0 then
    let k := ref_stk.getKRecord sm (count - 1) ktype
    let r := Map.index self.m_ref_last_time ktype Datetime.null
    if k.datetime != r.1 then
      ({ self with m_ref_last_time := Map.set r.2 ktype k.datetime }).event
        (event_type.onBar ktype)
    else
      { self with m_ref_last_time := r.2 }
  else
    self

/-- StrategyBase::finishReceivedSpot. -/
def StrategyBase.finishReceivedSpot (sm : StockManager) (self : StrategyBase)
    (_revTime : Datetime) : StrategyBase :=
  match self.m_stock_list with
  | [] => self
  | ref_stk :: _ =>
    let self1 := self.event event_type.onTick
    self1.getKTypeList.foldl (StrategyBase.finishReceivedSpot_ktype sm ref_stk) self1

/-- How a call of _startEventLoop ends: it returns, or it stays blocked in
wait_and_pop on an empty queue. -/
inductive LoopResult where
  | returned (self : StrategyBase)
  | blocked (self : StrategyBase)

def LoopResult.self : LoopResult → StrategyBase
  | .returned s => s
  | .blocked s => s

/-- The loop of _startEventLoop on the queue content given as first argument. -/
def StrategyBase.eventLoop (hooks : Hooks) : List event_type → StrategyBase → LoopResult
  | [], self =>
    if self.ms_keep_running then LoopResult.blocked { self with m_event_queue := [] }
    else LoopResult.returned { self with m_event_queue := [] }
  | task :: queue, self =>
    if self.ms_keep_running then
      if task.isNullTask then
        StrategyBase.eventLoop hooks queue
          { self with m_event_queue := queue, ms_keep_running := false }
      else
        StrategyBase.eventLoop hooks queue (task.call hooks { self with m_event_queue := queue })
    else
      LoopResult.returned { self with m_event_queue := task :: queue }

/-- StrategyBase::_startEventLoop. -/
def StrategyBase._startEventLoop (hooks : Hooks) (self : StrategyBase) : LoopResult :=
  StrategyBase.eventLoop hooks self.m_event_queue self

/-- Why run stops before the consumer loop: the call exit(code), or an exception
that leaves run. -/
inductive Abort where
  | exit (code : Nat)
  | exception (what : String)
deriving DecidableEq, Repr

/-- The five parameter sets handed to StockManager::init. -/
structure RunParams where
  baseParam : Parameter
  blockParam : Parameter
  kdataParam : Parameter
  preloadParam : Parameter
  hkuParam : Parameter
deriving DecidableEq, Repr

/-- An exception of an accessor of IniParser that run does not catch. -/
def uncaught {α : Type} (r : Except String α) : Except Abort α :=
  match r with
  | .ok a => .ok a
  | .error what => .error (Abort.exception what)

/-- The loops of run that copy every option of a section to a parameter set
(lines 81-84, 87-90, 93-95). -/
def run_copySection (config : IniParser) (sect : String) (option : List String)
    (param : Parameter) : Except Abort Parameter :=
  option.foldlM
    (fun p iter => do
      let value ← uncaught (config.get sect iter "")
      pure (Parameter.set p iter (ParamValue.str value)))
    param

/-- The timeframe list of run (lines 98-102): a copy of the list of the context, with
KQuery::DAY pushed when that list is empty. -/
def StrategyBase.run_ktype_list (self : StrategyBase) : List KType :=
  let ktype_list := self.m_context.getKTypeList
  if ktype_list.isEmpty then ktype_list ++ [KQuery.DAY] else ktype_list

/-- The loop of run that fills preloadParam (lines 104-113). -/
def run_preload (config : IniParser) (ktype_list : List KType) (preloadParam : Parameter) :
    Parameter :=
  ktype_list.foldl
    (fun p ktype0 =>
      let ktype := to_lower ktype0
      let p1 := Parameter.set p ktype (ParamValue.bool true)
      let key := ktype ++ "_max"
      match config.getInt "preload" key with
      | .ok v => Parameter.set p1 key (ParamValue.int v)
      | .error _ => Parameter.set p1 key (ParamValue.int 4096))
    preloadParam

/-- The configuration part of run (lines 54-113); it changes no member. -/
def StrategyBase.run_config (env : Env) (self : StrategyBase) : Except Abort RunParams :=
  match env.read self.m_config_file with
  | .error _ => .error (Abort.exit 1)
  | .ok config => do
    let tmpdir ← uncaught (config.get "hikyuu" "tmpdir" ".")
    let hkuParam1 := Parameter.set [] "tmpdir" (ParamValue.str tmpdir)
    let datadir ← uncaught (config.get "hikyuu" "datadir" ".")
    let hkuParam := Parameter.set hkuParam1 "datadir" (ParamValue.str datadir)
    if !config.hasSection "baseinfo" then
      .error (Abort.exit 1)
    else do
      let option ← uncaught (config.getOptionList "baseinfo")
      let baseParam ← run_copySection config "baseinfo" option []
      let block_config ← uncaught (config.getOptionList "block")
      let blockParam ← run_copySection config "block" block_config []
      let option2 ← uncaught (config.getOptionList "kdata")
      let kdataParam ← run_copySection config "kdata" option2 []
      let preloadParam := run_preload config self.run_ktype_list []
      pure ⟨baseParam, blockParam, kdataParam, preloadParam, hkuParam⟩

/-- The loop of run that resolves the code list (lines 118-127). -/
def StrategyBase.run_stock_list (sm : StockManager) (self : StrategyBase) : StrategyBase :=
  self.getStockCodeList.foldl
    (fun s code =>
      let stk := sm.getStock code
      if !stk.isNull then { s with m_stock_list := s.m_stock_list ++ [stk] } else s)
    self

/-- One turn of the loop of run over the timeframes (lines 133-140). -/
def StrategyBase.run_ref_last_time_ktype (sm : StockManager) (ref_stk : Stock)
    (self : StrategyBase) (ktype : KType) : StrategyBase :=
  let klist := ref_stk.getKRecordList sm ktype
  let count := klist.length
  if count > 0 then
    let last := klist.getD (count - 1) KRecord.null
    { self with m_ref_last_time := Map.set self.m_ref_last_time ktype last.datetime }
  else
    { self with m_ref_last_time := Map.set self.m_ref_last_time ktype Datetime.null }

/-- The part of run that computes m_ref_last_time (lines 130-142). -/
def StrategyBase.run_ref_last_time (sm : StockManager) (ktype_list : List KType)
    (self : StrategyBase) : StrategyBase :=
  match self.m_stock_list with
  | [] => self
  | ref_stk :: _ =>
    ktype_list.foldl (StrategyBase.run_ref_last_time_ktype sm ref_stk) self

/-- How the startup of run ends: exit(code), an exception, or the call of
_startEventLoop is reached with the registry built by StockManager::init. -/
inductive StartupResult where
  | exited (code : Nat) (self : StrategyBase)
  | threw (what : String) (self : StrategyBase)
  | ready (sm : StockManager) (self : StrategyBase)

def StartupResult.self : StartupResult → StrategyBase
  | .exited _ s => s
  | .threw _ s => s
  | .ready _ s => s

/-- StrategyBase::run up to the call of _startEventLoop (lines 44-148). Installing
sig_handler for SIGINT, and registering the two callbacks with the spot agent and
starting it, change no member. -/
def StrategyBase.run_startup (env : Env) (hooks : Hooks) (self : StrategyBase) :
    StartupResult :=
  let self1 := self.init hooks
  match self1.run_config env with
  | .error (Abort.exit code) => StartupResult.exited code self1
  | .error (Abort.exception what) => StartupResult.threw what self1
  | .ok p =>
    let ktype_list := self1.run_ktype_list
    let sm := env.init_sm p.baseParam p.blockParam p.kdataParam p.preloadParam p.hkuParam
      self1.m_context
    let self2 := self1.run_stock_list sm
    let self3 := self2.run_ref_last_time sm ktype_list
    StartupResult.ready sm self3

/-- How a call of run ends. -/
inductive RunOutcome where
  | exited (code : Nat) (self : StrategyBase)
  | threw (what : String) (self : StrategyBase)
  | looped (r : LoopResult)

def RunOutcome.self : RunOutcome → StrategyBase
  | .exited _ s => s
  | .threw _ s => s
  | .looped r => r.self

/-- StrategyBase::run. -/
def StrategyBase.run (env : Env) (hooks : Hooks) (self : StrategyBase) : RunOutcome :=
  match self.run_startup env hooks with
  | .exited code s => RunOutcome.exited code s
  | .threw what s => RunOutcome.threw what s
  | .ready _ s => RunOutcome.looped (s._startEventLoop hooks)

/-! ## Concrete inputs -/

/-- A configuration with the sections hikyuu, baseinfo, block and kdata, all without
options. -/
def iniFull : IniParser :=
  { hasSection := fun s => s == "hikyuu" || s == "baseinfo" || s == "block" || s == "kdata",
    getOptionList := fun _ => .ok [],
    get := fun _ _ d => .ok d,
    getInt := fun _ _ => .error "No option" }

/-- A configuration without the section baseinfo. -/
def iniNoBaseinfo : IniParser :=
  { hasSection := fun s => s == "hikyuu",
    getOptionList := fun _ => .ok [],
    get := fun _ _ d => .ok d,
    getInt := fun _ _ => .error "No option" }

/-- Instrument 1, known to the registry as sh000001. -/
def stkA : Stock := ⟨some 1⟩

/-- Instrument 2, known to the registry as sz000001. -/
def stkB : Stock := ⟨some 2⟩

/-- A registry that knows the codes sh000001 and sz000001 only; sh000001 has the given
daily series, and there is no other bar. -/
def smA (days : List Nat) : StockManager :=
  { getStock := fun code =>
      if code = "sh000001" then stkA else if code = "sz000001" then stkB else ⟨none⟩,
    kdata := fun stk ktype =>
      if stk = stkA ∧ ktype = "DAY" then days.map (fun d => ⟨some d⟩) else [] }

/-- An environment whose configuration is complete and whose registry is smA [1]. -/
def envA : Env :=
  { read := fun _ => .ok iniFull, sm_init := fun _ _ _ _ _ _ => smA [1] }

/-- An environment whose configuration lacks the section baseinfo. -/
def envNoBaseinfo : Env :=
  { read := fun _ => .ok iniNoBaseinfo, sm_init := fun _ _ _ _ _ _ => smA [1] }

/-- Hooks that leave the context alone. -/
def hooksId : Hooks :=
  { init := fun c => c, onTick := fun c => c, onBar := fun _ c => c }

/-- A fresh runner with the given code list and timeframe list. -/
def fresh (codes : List String) (ktypes : List KType) : StrategyBase :=
  { StrategyBase.mk2 "Strategy" "hikyuu.ini" with m_context := ⟨codes, ktypes⟩ }

/-- A runner after startup: universe [A, B], the given timeframe list, and the entry of
DAY in the baseline map set to the given day. -/
def started (ktypes : List KType) (day : Nat) : StrategyBase :=
  { fresh ["sh000001", "sz000001"] ktypes with
    m_stock_list := [stkA, stkB],
    m_ref_last_time := Map.set Map.empty "DAY" (some day),
    calls := [HookCall.init] }

/-- A runner after startup with an empty universe and the timeframe list [DAY]. -/
def startedEmpty : StrategyBase :=
  { fresh [] ["DAY"] with calls := [HookCall.init] }

/-- The parameter sets that run builds from iniFull for the default timeframe list. -/
def paramsA : RunParams :=
  { baseParam := [], blockParam := [], kdataParam := [],
    preloadParam := [("day_max", ParamValue.int 4096), ("day", ParamValue.bool true)],
    hkuParam := [("datadir", ParamValue.str "."), ("tmpdir", ParamValue.str ".")] }

/-- A tick of instrument sh000001. -/
def spotA : SpotRecord := ⟨"sh", "000001", [10]⟩

/-- A tick of an instrument that the registry does not know. -/
def spotZ : SpotRecord := ⟨"zz", "999999", [7]⟩

/-- The calls task() of a list of tasks, in the order of the list. -/
def StrategyBase.callAll (hooks : Hooks) (tasks : List event_type) (self : StrategyBase) :
    StrategyBase :=
  tasks.foldl (fun s task => task.call hooks s) self

/-- The state with the given queue content and ms_keep_running false. -/
def StrategyBase.stopped (self : StrategyBase) (queue : List event_type) : StrategyBase :=
  { self with m_event_queue := queue, ms_keep_running := false }

/-- A runner whose queue holds a Tick-Event, a Bar-Event, the null task and one more
Tick-Event. -/
def queued : StrategyBase :=
  { started ["DAY"] 1 with
    m_event_queue := [event_type.onTick, event_type.onBar "DAY", event_type.nullTask,
      event_type.onTick] }

/-- The hook invocation that a task makes when it is called. -/
def event_type.hookCall? : event_type → Option HookCall
  | .nullTask => none
  | .onTick => some HookCall.onTick
  | .onBar ktype => some (HookCall.onBar ktype)

end hku

/-! ## Lemmas on finishReceivedSpot -/

namespace hku

/-- The baseline of a timeframe as the comparison of finishReceivedSpot reads it: a
missing entry reads as the null Datetime. -/
def StrategyBase.baseline (self : StrategyBase) (ktype : KType) : Datetime :=
  (self.m_ref_last_time ktype).getD Datetime.null

/-- A sequence of calls of finishReceivedSpot, each with the registry it observes and
its argument. -/
def StrategyBase.finishAll (cycles : List (StockManager × Datetime)) (self : StrategyBase) :
    StrategyBase :=
  cycles.foldl (fun s c => s.finishReceivedSpot c.1 c.2) self

/-- The number of queued Bar-Events of a timeframe. -/
def StrategyBase.barEvents (self : StrategyBase) (ktype : KType) : Nat :=
  self.m_event_queue.count (event_type.onBar ktype)

/-- The number of queued Tick-Events. -/
def StrategyBase.tickEvents (self : StrategyBase) : Nat :=
  self.m_event_queue.count event_type.onTick

theorem getD_last_of_getLast? {α : Type} (l : List α) (x dflt : α)
    (h : l.getLast? = some x) : 0 < l.length ∧ l.getD (l.length - 1) dflt = x := by
  cases l with
  | nil => simp at h
  | cons a t =>
    refine ⟨by simp, ?_⟩
    rw [List.getLast?_eq_getElem?] at h
    rw [List.getD_eq_getElem?_getD, h]
    rfl

theorem lastDatetime_eq_none (sm : StockManager) (stk : Stock) (kt : KType) :
    stk.lastDatetime sm kt = none ↔ sm.kdata stk kt = [] := by
  unfold Stock.lastDatetime
  cases h : sm.kdata stk kt with
  | nil => simp
  | cons a t => simp [List.getLast?_cons_cons, List.getLast?_eq_getLast _ (List.cons_ne_nil a t)]

theorem lastDatetime_eq_some (sm : StockManager) (stk : Stock) (kt : KType) (d : Datetime)
    (h : stk.lastDatetime sm kt = some d) :
    0 < stk.getCount sm kt ∧ (stk.getKRecord sm (stk.getCount sm kt - 1) kt).datetime = d := by
  unfold Stock.lastDatetime at h
  unfold Stock.getCount Stock.getKRecord
  cases hl : (sm.kdata stk kt).getLast? with
  | none => simp [hl] at h
  | some x =>
    simp [hl] at h
    have := getD_last_of_getLast? (sm.kdata stk kt) x KRecord.null hl
    exact ⟨this.1, by rw [this.2]; exact h⟩

/-- One turn on an empty series changes nothing. -/
theorem step_empty (sm : StockManager) (ref : Stock) (s : StrategyBase) (kt : KType)
    (h : sm.kdata ref kt = []) : s.finishReceivedSpot_ktype sm ref kt = s := by
  simp [StrategyBase.finishReceivedSpot_ktype, Stock.getCount, h]

/-- One turn leaves every member but the baseline map and the queue alone. -/
theorem step_frame (sm : StockManager) (ref : Stock) (s : StrategyBase) (kt : KType) :
    (s.finishReceivedSpot_ktype sm ref kt).m_stock_list = s.m_stock_list ∧
    (s.finishReceivedSpot_ktype sm ref kt).m_context = s.m_context ∧
    (s.finishReceivedSpot_ktype sm ref kt).m_spot_map = s.m_spot_map ∧
    (s.finishReceivedSpot_ktype sm ref kt).ms_keep_running = s.ms_keep_running ∧
    (s.finishReceivedSpot_ktype sm ref kt).calls = s.calls := by
  unfold StrategyBase.finishReceivedSpot_ktype
  simp only []
  split
  · split <;> simp [StrategyBase.event]
  · simp

/-- One turn on a non-empty series: the entry becomes the last timestamp, and a
Bar-Event is pushed exactly when that timestamp differs from the baseline read. -/
theorem step_some (sm : StockManager) (ref : Stock) (s : StrategyBase) (kt : KType)
    (d : Datetime) (h : ref.lastDatetime sm kt = some d) :
    (s.finishReceivedSpot_ktype sm ref kt).m_ref_last_time kt = some d ∧
    (s.finishReceivedSpot_ktype sm ref kt).m_event_queue =
      s.m_event_queue ++ (if d = s.baseline kt then [] else [event_type.onBar kt]) := by
  obtain ⟨hc, hd⟩ := lastDatetime_eq_some sm ref kt d h
  unfold StrategyBase.finishReceivedSpot_ktype StrategyBase.baseline
  simp only [hc, hd, if_true, gt_iff_lt]
  cases hm : s.m_ref_last_time kt with
  | none =>
    by_cases hdn : d = Datetime.null
    · simp [Map.index, hm, hdn, Map.set]
    · simp [Map.index, hm, hdn, Map.set, StrategyBase.event]
  | some v =>
    by_cases hdv : d = v
    · simp [Map.index, hm, hdv]
    · simp [Map.index, hm, hdv, Map.set, StrategyBase.event]

/-- One turn for another timeframe leaves the entry of kt alone and pushes no
Bar-Event of kt. -/
theorem step_other (sm : StockManager) (ref : Stock) (s : StrategyBase) (kt k : KType)
    (hne : kt ≠ k) :
    (s.finishReceivedSpot_ktype sm ref k).m_ref_last_time kt = s.m_ref_last_time kt ∧
    (s.finishReceivedSpot_ktype sm ref k).barEvents kt = s.barEvents kt := by
  unfold StrategyBase.finishReceivedSpot_ktype StrategyBase.barEvents
  simp only []
  have hne2 : ¬ (event_type.onBar k = event_type.onBar kt) := by
    intro h; injection h with h; exact hne h.symm
  split
  · cases hm : s.m_ref_last_time k with
    | none => split <;> simp [Map.index, hm, Map.set, hne, StrategyBase.event, hne2]
    | some v => split <;> simp [Map.index, hm, Map.set, hne, StrategyBase.event, hne2]
  · simp

/-- The loop over the timeframes leaves every member but the baseline map and the
queue alone. -/
theorem fold_frame (sm : StockManager) (ref : Stock) (l : List KType) (s : StrategyBase) :
    (l.foldl (StrategyBase.finishReceivedSpot_ktype sm ref) s).m_stock_list = s.m_stock_list ∧
    (l.foldl (StrategyBase.finishReceivedSpot_ktype sm ref) s).m_context = s.m_context ∧
    (l.foldl (StrategyBase.finishReceivedSpot_ktype sm ref) s).m_spot_map = s.m_spot_map ∧
    (l.foldl (StrategyBase.finishReceivedSpot_ktype sm ref) s).ms_keep_running =
      s.ms_keep_running ∧
    (l.foldl (StrategyBase.finishReceivedSpot_ktype sm ref) s).calls = s.calls := by
  induction l generalizing s with
  | nil => simp
  | cons k t ih =>
    simp only [List.foldl_cons]
    have h1 := step_frame sm ref s k
    have h2 := ih (s.finishReceivedSpot_ktype sm ref k)
    exact ⟨h2.1.trans h1.1, h2.2.1.trans h1.2.1, h2.2.2.1.trans h1.2.2.1,
      h2.2.2.2.1.trans h1.2.2.2.1, h2.2.2.2.2.trans h1.2.2.2.2⟩

/-- What the loop over the timeframes pushes: Bar-Events of a sublist of the
timeframes, in the order of the list. -/
theorem fold_queue (sm : StockManager) (ref : Stock) (l : List KType) (s : StrategyBase) :
    ∃ ks : List KType, ks.Sublist l ∧
      (l.foldl (StrategyBase.finishReceivedSpot_ktype sm ref) s).m_event_queue =
        s.m_event_queue ++ ks.map event_type.onBar := by
  induction l generalizing s with
  | nil => exact ⟨[], List.Sublist.refl _, by simp⟩
  | cons k t ih =>
    simp only [List.foldl_cons]
    obtain ⟨ks, hsub, hq⟩ := ih (s.finishReceivedSpot_ktype sm ref k)
    cases hl : ref.lastDatetime sm k with
    | none =>
      have he := step_empty sm ref s k ((lastDatetime_eq_none sm ref k).1 hl)
      rw [he] at hq ⊢
      exact ⟨ks, hsub.cons k, hq⟩
    | some d =>
      have hs := (step_some sm ref s k d hl).2
      by_cases hd : d = s.baseline k
      · rw [hs] at hq
        simp only [hd, if_true, List.append_nil] at hq
        exact ⟨ks, hsub.cons k, hq⟩
      · rw [hs] at hq
        simp only [hd, if_false] at hq
        exact ⟨k :: ks, hsub.cons₂ k, by simp [hq]⟩

/-- Once the entry of kt is the last timestamp of its series, the loop keeps it and
pushes no Bar-Event of kt. -/
theorem fold_settled (sm : StockManager) (ref : Stock) (kt : KType) (d : Datetime)
    (hlast : ref.lastDatetime sm kt = some d) (l : List KType) (s : StrategyBase)
    (hb : s.m_ref_last_time kt = some d) :
    (l.foldl (StrategyBase.finishReceivedSpot_ktype sm ref) s).m_ref_last_time kt = some d ∧
    (l.foldl (StrategyBase.finishReceivedSpot_ktype sm ref) s).barEvents kt = s.barEvents kt := by
  induction l generalizing s with
  | nil => exact ⟨hb, rfl⟩
  | cons k t ih =>
    simp only [List.foldl_cons]
    by_cases hk : kt = k
    · subst hk
      have hs := step_some sm ref s kt d hlast
      have hbase : s.baseline kt = d := by simp [StrategyBase.baseline, hb]
      have h2 := ih (s.finishReceivedSpot_ktype sm ref kt) hs.1
      refine ⟨h2.1, h2.2.trans ?_⟩
      unfold StrategyBase.barEvents
      rw [hs.2]
      simp [hbase]
    · have hs := step_other sm ref s kt k hk
      have h2 := ih (s.finishReceivedSpot_ktype sm ref k) (hs.1.trans hb)
      exact ⟨h2.1, h2.2.trans hs.2⟩

/-- The loop over the timeframes on an empty series of kt: the entry of kt and the
number of its Bar-Events stay. -/
theorem fold_empty (sm : StockManager) (ref : Stock) (kt : KType)
    (hlast : sm.kdata ref kt = []) (l : List KType) (s : StrategyBase) :
    (l.foldl (StrategyBase.finishReceivedSpot_ktype sm ref) s).m_ref_last_time kt =
      s.m_ref_last_time kt ∧
    (l.foldl (StrategyBase.finishReceivedSpot_ktype sm ref) s).barEvents kt = s.barEvents kt := by
  induction l generalizing s with
  | nil => exact ⟨rfl, rfl⟩
  | cons k t ih =>
    simp only [List.foldl_cons]
    by_cases hk : kt = k
    · subst hk
      rw [step_empty sm ref s kt hlast]
      exact ih s
    · have hs := step_other sm ref s kt k hk
      have h2 := ih (s.finishReceivedSpot_ktype sm ref k)
      exact ⟨h2.1.trans hs.1, h2.2.trans hs.2⟩

/-- A timeframe that is not in the list keeps its entry and gets no Bar-Event. -/
theorem fold_not_mem (sm : StockManager) (ref : Stock) (kt : KType) (l : List KType)
    (hk : kt ∉ l) (s : StrategyBase) :
    (l.foldl (StrategyBase.finishReceivedSpot_ktype sm ref) s).m_ref_last_time kt =
      s.m_ref_last_time kt ∧
    (l.foldl (StrategyBase.finishReceivedSpot_ktype sm ref) s).barEvents kt = s.barEvents kt := by
  induction l generalizing s with
  | nil => exact ⟨rfl, rfl⟩
  | cons k t ih =>
    simp only [List.foldl_cons]
    simp only [List.mem_cons, not_or] at hk
    have hs := step_other sm ref s kt k hk.1
    have h2 := ih hk.2 (s.finishReceivedSpot_ktype sm ref k)
    exact ⟨h2.1.trans hs.1, h2.2.trans hs.2⟩

/-- The loop over a list that holds kt, on a non-empty series of kt: the entry becomes
the last timestamp, and exactly one Bar-Event of kt is pushed when that timestamp
differs from the baseline read, none otherwise. -/
theorem fold_mem (sm : StockManager) (ref : Stock) (kt : KType) (d : Datetime)
    (hlast : ref.lastDatetime sm kt = some d) (l : List KType) (hk : kt ∈ l)
    (s : StrategyBase) :
    (l.foldl (StrategyBase.finishReceivedSpot_ktype sm ref) s).m_ref_last_time kt = some d ∧
    (l.foldl (StrategyBase.finishReceivedSpot_ktype sm ref) s).barEvents kt =
      s.barEvents kt + (if d = s.baseline kt then 0 else 1) := by
  induction l generalizing s with
  | nil => simp at hk
  | cons k t ih =>
    simp only [List.foldl_cons]
    by_cases hkk : kt = k
    · subst hkk
      have hs := step_some sm ref s kt d hlast
      have h2 := fold_settled sm ref kt d hlast t (s.finishReceivedSpot_ktype sm ref kt) hs.1
      refine ⟨h2.1, h2.2.trans ?_⟩
      unfold StrategyBase.barEvents
      rw [hs.2]
      by_cases hd : d = s.baseline kt <;> simp [hd]
    · have hmem : kt ∈ t := by
        rcases List.mem_cons.1 hk with h | h
        · exact absurd h hkk
        · exact h
      have hs := step_other sm ref s kt k hkk
      have h2 := ih hmem (s.finishReceivedSpot_ktype sm ref k)
      have hbase : (s.finishReceivedSpot_ktype sm ref k).baseline kt = s.baseline kt := by
        simp [StrategyBase.baseline, hs.1]
      rw [hbase, hs.2] at h2
      exact h2

/-- A call with an empty universe returns the state it was given. -/
theorem finish_nil (sm : StockManager) (s : StrategyBase) (rev : Datetime)
    (hU : s.m_stock_list = []) : s.finishReceivedSpot sm rev = s := by
  simp [StrategyBase.finishReceivedSpot, hU]

/-- A call with a non-empty universe is the push of the Tick-Event followed by the
loop over the timeframes for the first instrument. -/
theorem finish_cons (sm : StockManager) (s : StrategyBase) (rev : Datetime)
    (ref : Stock) (rest : List Stock) (hU : s.m_stock_list = ref :: rest) :
    s.finishReceivedSpot sm rev =
      s.getKTypeList.foldl (StrategyBase.finishReceivedSpot_ktype sm ref)
        (s.event event_type.onTick) := by
  simp [StrategyBase.finishReceivedSpot, hU, StrategyBase.getKTypeList, StrategyBase.event]

/-- A call leaves every member but the baseline map and the queue alone. -/
theorem finish_frame (sm : StockManager) (s : StrategyBase) (rev : Datetime) :
    (s.finishReceivedSpot sm rev).m_stock_list = s.m_stock_list ∧
    (s.finishReceivedSpot sm rev).m_context = s.m_context ∧
    (s.finishReceivedSpot sm rev).m_spot_map = s.m_spot_map ∧
    (s.finishReceivedSpot sm rev).ms_keep_running = s.ms_keep_running ∧
    (s.finishReceivedSpot sm rev).calls = s.calls := by
  cases hU : s.m_stock_list with
  | nil => rw [finish_nil sm s rev hU]; simp [hU]
  | cons ref rest =>
    rw [finish_cons sm s rev ref rest hU]
    have h := fold_frame sm ref s.getKTypeList (s.event event_type.onTick)
    simpa [StrategyBase.event, hU] using h

theorem barEvents_event_onTick (s : StrategyBase) (kt : KType) :
    (s.event event_type.onTick).barEvents kt = s.barEvents kt := by
  simp [StrategyBase.barEvents, StrategyBase.event]

theorem baseline_event (s : StrategyBase) (e : event_type) :
    (s.event e).m_ref_last_time = s.m_ref_last_time := rfl

/-- A call while the entry of kt is the last timestamp of the series of kt keeps the
entry and pushes no Bar-Event of kt. -/
theorem finish_settled (sm : StockManager) (s : StrategyBase) (rev : Datetime)
    (ref : Stock) (rest : List Stock) (hU : s.m_stock_list = ref :: rest) (kt : KType)
    (d : Datetime) (hlast : ref.lastDatetime sm kt = some d)
    (hb : s.m_ref_last_time kt = some d) :
    (s.finishReceivedSpot sm rev).m_ref_last_time kt = some d ∧
    (s.finishReceivedSpot sm rev).barEvents kt = s.barEvents kt := by
  rw [finish_cons sm s rev ref rest hU]
  have h := fold_settled sm ref kt d hlast s.getKTypeList (s.event event_type.onTick) hb
  rw [barEvents_event_onTick] at h
  exact h

/-- A call for a subscribed timeframe whose last timestamp differs from the entry
sets the entry to that timestamp and pushes exactly one Bar-Event of the timeframe. -/
theorem finish_fires (sm : StockManager) (s : StrategyBase) (rev : Datetime)
    (ref : Stock) (rest : List Stock) (hU : s.m_stock_list = ref :: rest) (kt : KType)
    (hk : kt ∈ s.getKTypeList) (d d0 : Datetime) (hlast : ref.lastDatetime sm kt = some d)
    (hb : s.m_ref_last_time kt = some d0) (hne : d ≠ d0) :
    (s.finishReceivedSpot sm rev).m_ref_last_time kt = some d ∧
    (s.finishReceivedSpot sm rev).barEvents kt = s.barEvents kt + 1 := by
  rw [finish_cons sm s rev ref rest hU]
  have h := fold_mem sm ref kt d hlast s.getKTypeList hk (s.event event_type.onTick)
  have hbase : (s.event event_type.onTick).baseline kt = d0 := by
    simp [StrategyBase.baseline, baseline_event, hb]
  rw [barEvents_event_onTick, hbase] at h
  simpa [hne] using h

/-- Any number of calls made while the entry of kt is the last timestamp of the
series of kt keep the entry, the universe and the context, and push no Bar-Event of
kt. -/
theorem finishAll_settled (ref : Stock) (rest : List Stock) (kt : KType) (d : Datetime)
    (cycles : List (StockManager × Datetime))
    (hlast : ∀ c ∈ cycles, ref.lastDatetime c.1 kt = some d) (s : StrategyBase)
    (hU : s.m_stock_list = ref :: rest) (hb : s.m_ref_last_time kt = some d) :
    (s.finishAll cycles).m_ref_last_time kt = some d ∧
    (s.finishAll cycles).barEvents kt = s.barEvents kt ∧
    (s.finishAll cycles).m_stock_list = ref :: rest ∧
    (s.finishAll cycles).m_context = s.m_context := by
  induction cycles generalizing s with
  | nil => exact ⟨hb, rfl, hU, rfl⟩
  | cons c t ih =>
    have hc := finish_settled c.1 s c.2 ref rest hU kt d (hlast c (List.mem_cons_self c t)) hb
    have hf := finish_frame c.1 s c.2
    have h2 := ih (fun x hx => hlast x (List.mem_cons_of_mem c hx))
      (s.finishReceivedSpot c.1 c.2) (hf.1.trans hU) hc.1
    exact ⟨h2.1, h2.2.1.trans hc.2, h2.2.2.1, h2.2.2.2.trans hf.2.1⟩

theorem lastDatetime_congr (sm1 sm2 : StockManager) (ref : Stock) (kt : KType)
    (h : sm2.kdata ref kt = sm1.kdata ref kt) :
    ref.lastDatetime sm2 kt = ref.lastDatetime sm1 kt := by
  simp [Stock.lastDatetime, h]

/-! ## Claims on finishReceivedSpot -/

/-- For a timeframe kt of getKTypeList (the list that finishReceivedSpot iterates) whose
baseline entry is T0: any number of finishReceivedSpot calls made while the last bar
timestamp of the reference instrument is still T0 enqueue no Bar-Event of kt and leave
the entry at T0; the first call made after the last bar timestamp has become T1 > T0
enqueues exactly one Bar-Event of kt and sets the entry to T1; further calls with the
series unchanged enqueue no more Bar-Events of kt. -/
theorem finish_bar_event_once_per_new_bar (s : StrategyBase) (ref : Stock) (rest : List Stock)
    (hU : s.m_stock_list = ref :: rest) (kt : KType) (hk : kt ∈ s.getKTypeList)
    (T0 T1 : Nat) (hb : s.m_ref_last_time kt = some (some T0)) (hlt : T0 < T1)
    (before : List (StockManager × Datetime))
    (hbefore : ∀ c ∈ before, ref.lastDatetime c.1 kt = some (some T0))
    (sm1 : StockManager) (rev1 : Datetime)
    (hnew : ref.lastDatetime sm1 kt = some (some T1))
    (after : List (StockManager × Datetime))
    (hafter : ∀ c ∈ after, c.1.kdata ref kt = sm1.kdata ref kt) :
    (s.finishAll before).barEvents kt = s.barEvents kt ∧
    (s.finishAll before).m_ref_last_time kt = some (some T0) ∧
    ((s.finishAll before).finishReceivedSpot sm1 rev1).barEvents kt = s.barEvents kt + 1 ∧
    ((s.finishAll before).finishReceivedSpot sm1 rev1).m_ref_last_time kt = some (some T1) ∧
    (((s.finishAll before).finishReceivedSpot sm1 rev1).finishAll after).barEvents kt =
      s.barEvents kt + 1 ∧
    (((s.finishAll before).finishReceivedSpot sm1 rev1).finishAll after).m_ref_last_time kt =
      some (some T1) := by
  have h1 := finishAll_settled ref rest kt (some T0) before hbefore s hU hb
  have hk1 : kt ∈ (s.finishAll before).getKTypeList := by
    unfold StrategyBase.getKTypeList
    rw [h1.2.2.2]
    exact hk
  have hne : (some T1 : Datetime) ≠ some T0 := by
    intro h
    injection h with h
    omega
  have h2 := finish_fires sm1 (s.finishAll before) rev1 ref rest h1.2.2.1 kt hk1
    (some T1) (some T0) hnew h1.1 hne
  have hf := finish_frame sm1 (s.finishAll before) rev1
  have h3 := finishAll_settled ref rest kt (some T1) after
    (fun c hc => (lastDatetime_congr sm1 c.1 ref kt (hafter c hc)).trans hnew)
    ((s.finishAll before).finishReceivedSpot sm1 rev1) (hf.1.trans h1.2.2.1) h2.1
  refine ⟨h1.2.1, h1.1, ?_, h2.1, ?_, h3.1⟩
  · rw [h2.2, h1.2.1]
  · rw [h3.2.1, h2.2, h1.2.1]

/-- The configured case at a concrete input: universe [A, B], timeframes [DAY], baseline
1; two calls on the series [1], one call on [1, 2], two more calls on [1, 2]. -/
theorem finish_bar_event_once_per_new_bar_witness :
    ((started ["DAY"] 1).finishAll [(smA [1], none), (smA [1], none)]).barEvents "DAY" =
      (started ["DAY"] 1).barEvents "DAY" ∧
    ((started ["DAY"] 1).finishAll [(smA [1], none), (smA [1], none)]).m_ref_last_time "DAY" =
      some (some 1) ∧
    (((started ["DAY"] 1).finishAll [(smA [1], none), (smA [1], none)]).finishReceivedSpot
      (smA [1, 2]) none).barEvents "DAY" = (started ["DAY"] 1).barEvents "DAY" + 1 ∧
    (((started ["DAY"] 1).finishAll [(smA [1], none), (smA [1], none)]).finishReceivedSpot
      (smA [1, 2]) none).m_ref_last_time "DAY" = some (some 2) ∧
    ((((started ["DAY"] 1).finishAll [(smA [1], none), (smA [1], none)]).finishReceivedSpot
      (smA [1, 2]) none).finishAll [(smA [1, 2], none), (smA [1, 2], none)]).barEvents "DAY" =
      (started ["DAY"] 1).barEvents "DAY" + 1 ∧
    ((((started ["DAY"] 1).finishAll [(smA [1], none), (smA [1], none)]).finishReceivedSpot
      (smA [1, 2]) none).finishAll [(smA [1, 2], none), (smA [1, 2], none)]).m_ref_last_time
      "DAY" = some (some 2) :=
  finish_bar_event_once_per_new_bar (started ["DAY"] 1) stkA [stkB] rfl "DAY" (by decide) 1 2
    (by decide) (by decide) [(smA [1], none), (smA [1], none)]
    (by intro c hc; simp at hc; subst hc; decide) (smA [1, 2]) none (by decide)
    [(smA [1, 2], none), (smA [1, 2], none)] (by intro c hc; simp at hc; subst hc; rfl)

/-- C1 (the code at the failing input): with an empty configured timeframe list the
subscribed list of run is [DAY], and after startup the baseline entry of DAY is 1, the
last bar timestamp of the reference instrument at startup. The first
finishReceivedSpot call that sees the last bar timestamp 2 > 1 enqueues no Bar-Event
of DAY and leaves the entry at 1, where the claim asks for exactly one Bar-Event and
the entry 2. -/
theorem C1_default_daily_gets_no_bar_event :
    (fresh ["sh000001", "sz000001"] []).run_startup envA hooksId =
      StartupResult.ready (smA [1]) (started [] 1) ∧
    ((fresh ["sh000001", "sz000001"] []).init hooksId).run_ktype_list = ["DAY"] ∧
    stkA.lastDatetime (smA [1]) "DAY" = some (some 1) ∧
    (started [] 1).m_ref_last_time "DAY" = some (some 1) ∧
    stkA.lastDatetime (smA [1, 2]) "DAY" = some (some 2) ∧
    ((started [] 1).finishReceivedSpot (smA [1, 2]) none).barEvents "DAY" =
      (started [] 1).barEvents "DAY" ∧
    ((started [] 1).finishReceivedSpot (smA [1, 2]) none).barEvents "DAY" = 0 ∧
    ((started [] 1).finishReceivedSpot (smA [1, 2]) none).m_ref_last_time "DAY" =
      some (some 1) ∧
    (((started [] 1).finishReceivedSpot (smA [1, 2]) none).finishAll
      [(smA [1, 2], none), (smA [1, 2], none)]).barEvents "DAY" = 0 :=
  ⟨rfl, by decide, by decide, by decide, by decide, by decide, by decide, by decide,
    by decide⟩

/-- C6: with a non-empty universe, one finishReceivedSpot call appends to the event
queue exactly one Tick-Event followed by the Bar-Events of a sublist of the timeframe
list, in the order of that list; so no Bar-Event of the call precedes its Tick-Event. -/
theorem C6_tick_then_bars_in_order (sm : StockManager) (s : StrategyBase) (rev : Datetime)
    (hU : s.m_stock_list ≠ []) :
    ∃ ks : List KType, ks.Sublist s.getKTypeList ∧
      (s.finishReceivedSpot sm rev).m_event_queue =
        s.m_event_queue ++ event_type.onTick :: ks.map event_type.onBar := by
  cases hl : s.m_stock_list with
  | nil => exact absurd hl hU
  | cons ref rest =>
    rw [finish_cons sm s rev ref rest hl]
    obtain ⟨ks, hsub, hq⟩ := fold_queue sm ref s.getKTypeList (s.event event_type.onTick)
    refine ⟨ks, hsub, ?_⟩
    rw [hq]
    simp [StrategyBase.event]

/-- Witness of C6: universe [A, B], timeframes [MIN, DAY], baseline of DAY 1, daily
series [1, 2] and no minute bar. -/
theorem C6_tick_then_bars_in_order_witness :
    ∃ ks : List KType, ks.Sublist (started ["MIN", "DAY"] 1).getKTypeList ∧
      ((started ["MIN", "DAY"] 1).finishReceivedSpot (smA [1, 2]) none).m_event_queue =
        (started ["MIN", "DAY"] 1).m_event_queue ++ event_type.onTick :: ks.map event_type.onBar :=
  C6_tick_then_bars_in_order (smA [1, 2]) (started ["MIN", "DAY"] 1) none (by decide)

/-- Counterexample to C5 as stated: with baseline 5 and a series whose last bar is at
3, one call moves the entry of DAY from 5 to the older timestamp 3 and enqueues a
Bar-Event. -/
theorem C5_counterexample :
    (started ["DAY"] 5).m_ref_last_time "DAY" = some (some 5) ∧
    stkA.lastDatetime (smA [3]) "DAY" = some (some 3) ∧
    ((started ["DAY"] 5).finishReceivedSpot (smA [3]) none).m_ref_last_time "DAY" =
      some (some 3) ∧
    ((started ["DAY"] 5).finishReceivedSpot (smA [3]) none).m_event_queue =
      [event_type.onTick, event_type.onBar "DAY"] ∧
    ¬ (5 < 3) := by
  decide

/-- C5 (amended): one finishReceivedSpot call changes the baseline of a timeframe only
when the universe is non-empty, the timeframe is in the timeframe list, the series of
the reference instrument for it is non-empty and its most recent bar timestamp differs
from the old baseline (a missing entry reading as unset); the entry then becomes that
timestamp and one Bar-Event of the timeframe is enqueued. On an empty series the entry
does not change and no Bar-Event of the timeframe is enqueued. -/
theorem C5_baseline_changes_only_on_different_last (sm : StockManager) (s : StrategyBase)
    (rev : Datetime) (kt : KType) :
    ((s.finishReceivedSpot sm rev).baseline kt ≠ s.baseline kt →
      ∃ ref rest d, s.m_stock_list = ref :: rest ∧ kt ∈ s.getKTypeList ∧
        ref.lastDatetime sm kt = some d ∧ d ≠ s.baseline kt ∧
        (s.finishReceivedSpot sm rev).m_ref_last_time kt = some d ∧
        (s.finishReceivedSpot sm rev).barEvents kt = s.barEvents kt + 1) ∧
    ((∀ ref rest, s.m_stock_list = ref :: rest → sm.kdata ref kt = []) →
      (s.finishReceivedSpot sm rev).m_ref_last_time kt = s.m_ref_last_time kt ∧
      (s.finishReceivedSpot sm rev).barEvents kt = s.barEvents kt) := by
  cases hU : s.m_stock_list with
  | nil =>
    rw [finish_nil sm s rev hU]
    exact ⟨fun h => absurd rfl h, fun _ => ⟨rfl, rfl⟩⟩
  | cons ref rest =>
    rw [finish_cons sm s rev ref rest hU]
    constructor
    · intro hch
      by_cases hk : kt ∈ s.getKTypeList
      · cases hl : ref.lastDatetime sm kt with
        | none =>
          have h := fold_empty sm ref kt ((lastDatetime_eq_none sm ref kt).1 hl)
            s.getKTypeList (s.event event_type.onTick)
          exact absurd (by simp [StrategyBase.baseline, h.1, baseline_event]) hch
        | some d =>
          have h := fold_mem sm ref kt d hl s.getKTypeList hk (s.event event_type.onTick)
          have hbase : (s.event event_type.onTick).baseline kt = s.baseline kt := rfl
          rw [barEvents_event_onTick, hbase] at h
          by_cases hd : d = s.baseline kt
          · exact absurd (by simp [StrategyBase.baseline, h.1]; exact hd) hch
          · exact ⟨ref, rest, d, rfl, hk, hl, hd, h.1, by simpa [hd] using h.2⟩
      · have h := fold_not_mem sm ref kt s.getKTypeList hk (s.event event_type.onTick)
        exact absurd (by simp [StrategyBase.baseline, h.1, baseline_event]) hch
    · intro hempty
      have h := fold_empty sm ref kt (hempty ref rest rfl) s.getKTypeList
        (s.event event_type.onTick)
      rw [barEvents_event_onTick, baseline_event] at h
      exact h

/-- Witness of C5 (amended): the change of the counterexample (baseline 5, last bar 3)
for the first part, an empty series for the second. -/
theorem C5_baseline_changes_only_on_different_last_witness :
    (((started ["DAY"] 5).finishReceivedSpot (smA [3]) none).baseline "DAY" ≠
        (started ["DAY"] 5).baseline "DAY" ∧
      ∃ ref rest d, (started ["DAY"] 5).m_stock_list = ref :: rest ∧
        "DAY" ∈ (started ["DAY"] 5).getKTypeList ∧
        ref.lastDatetime (smA [3]) "DAY" = some d ∧ d ≠ (started ["DAY"] 5).baseline "DAY" ∧
        ((started ["DAY"] 5).finishReceivedSpot (smA [3]) none).m_ref_last_time "DAY" = some d ∧
        ((started ["DAY"] 5).finishReceivedSpot (smA [3]) none).barEvents "DAY" =
          (started ["DAY"] 5).barEvents "DAY" + 1) ∧
    ((∀ ref rest, (started ["DAY"] 5).m_stock_list = ref :: rest →
        (smA []).kdata ref "DAY" = []) ∧
      ((started ["DAY"] 5).finishReceivedSpot (smA []) none).m_ref_last_time "DAY" =
        (started ["DAY"] 5).m_ref_last_time "DAY" ∧
      ((started ["DAY"] 5).finishReceivedSpot (smA []) none).barEvents "DAY" =
        (started ["DAY"] 5).barEvents "DAY") :=
  ⟨⟨by decide,
      (C5_baseline_changes_only_on_different_last (smA [3]) (started ["DAY"] 5) none "DAY").1
        (by decide)⟩,
    ⟨by intro ref rest _; simp [smA],
      (C5_baseline_changes_only_on_different_last (smA []) (started ["DAY"] 5) none "DAY").2
        (by intro ref rest _; simp [smA])⟩⟩

/-- C10: receivedSpot leaves the whole state unchanged when market+code of the tick
resolves to no instrument; when it resolves to stk, the snapshot afterwards maps stk to
the tick and every other entry is unchanged; in both cases the event queue and the
baseline map are untouched. -/
theorem C10_receivedSpot_last_write_wins (sm : StockManager) (s : StrategyBase)
    (spot : SpotRecord) :
    ((sm.getStock (spot.market ++ spot.code)).isNull = true → s.receivedSpot sm spot = s) ∧
    ((sm.getStock (spot.market ++ spot.code)).isNull = false →
      (s.receivedSpot sm spot).m_spot_map (sm.getStock (spot.market ++ spot.code)) = some spot ∧
      ∀ stk, stk ≠ sm.getStock (spot.market ++ spot.code) →
        (s.receivedSpot sm spot).m_spot_map stk = s.m_spot_map stk) ∧
    (s.receivedSpot sm spot).m_event_queue = s.m_event_queue ∧
    (s.receivedSpot sm spot).m_ref_last_time = s.m_ref_last_time := by
  cases h : (sm.getStock (spot.market ++ spot.code)).isNull with
  | true =>
    have hs : s.receivedSpot sm spot = s := by simp [StrategyBase.receivedSpot, h]
    rw [hs]
    exact ⟨fun _ => rfl, fun hc => absurd hc (by simp), rfl, rfl⟩
  | false =>
    have hs : ∀ m, m = Map.set s.m_spot_map (sm.getStock (spot.market ++ spot.code)) spot →
        s.receivedSpot sm spot = { s with m_spot_map := m } := by
      intro m hm
      simp [StrategyBase.receivedSpot, h, hm]
    rw [hs _ rfl]
    exact ⟨fun hc => absurd hc (by simp),
      fun _ => ⟨by simp [Map.set], fun stk hne => by simp [Map.set, hne]⟩, rfl, rfl⟩

/-- Witness of C10: a tick of sh000001 (resolved) and a tick of an unknown code. -/
theorem C10_receivedSpot_last_write_wins_witness :
    ((smA [1]).getStock (spotZ.market ++ spotZ.code)).isNull = true ∧
    (started ["DAY"] 1).receivedSpot (smA [1]) spotZ = started ["DAY"] 1 ∧
    ((smA [1]).getStock (spotA.market ++ spotA.code)).isNull = false ∧
    ((started ["DAY"] 1).receivedSpot (smA [1]) spotA).m_spot_map
      ((smA [1]).getStock (spotA.market ++ spotA.code)) = some spotA :=
  ⟨by decide,
    (C10_receivedSpot_last_write_wins (smA [1]) (started ["DAY"] 1) spotZ).1 (by decide),
    by decide,
    ((C10_receivedSpot_last_write_wins (smA [1]) (started ["DAY"] 1) spotA).2.1
      (by decide)).1⟩

/-! ## The consumer loop -/

theorem call_set_queue (hooks : Hooks) (e : event_type) (s : StrategyBase)
    (q : List event_type) :
    e.call hooks { s with m_event_queue := q } =
      { e.call hooks s with m_event_queue := q } := by
  cases e <;> rfl

theorem call_keep_running (hooks : Hooks) (e : event_type) (s : StrategyBase) :
    (e.call hooks s).ms_keep_running = s.ms_keep_running := by
  cases e <;> rfl

theorem call_calls (hooks : Hooks) (e : event_type) (s : StrategyBase) :
    (e.call hooks s).calls = s.calls ++ e.hookCall?.toList := by
  cases e <;> simp [event_type.call, event_type.hookCall?, StrategyBase.onTick,
    StrategyBase.onBar]

theorem callAll_set_queue (hooks : Hooks) (es : List event_type) (s : StrategyBase)
    (q : List event_type) :
    StrategyBase.callAll hooks es { s with m_event_queue := q } =
      { StrategyBase.callAll hooks es s with m_event_queue := q } := by
  induction es generalizing s with
  | nil => rfl
  | cons e t ih =>
    simp only [StrategyBase.callAll, List.foldl_cons] at ih ⊢
    rw [call_set_queue, ih]

theorem callAll_keep_running (hooks : Hooks) (es : List event_type) (s : StrategyBase) :
    (StrategyBase.callAll hooks es s).ms_keep_running = s.ms_keep_running := by
  induction es generalizing s with
  | nil => rfl
  | cons e t ih =>
    simp only [StrategyBase.callAll, List.foldl_cons] at ih ⊢
    rw [ih, call_keep_running]

theorem callAll_calls (hooks : Hooks) (es : List event_type) (s : StrategyBase) :
    (StrategyBase.callAll hooks es s).calls = s.calls ++ es.filterMap event_type.hookCall? := by
  induction es generalizing s with
  | nil => simp [StrategyBase.callAll]
  | cons e t ih =>
    simp only [StrategyBase.callAll, List.foldl_cons] at ih ⊢
    rw [ih, call_calls]
    cases e <;> simp [event_type.hookCall?, List.filterMap_cons]

theorem length_hookCalls (es : List event_type) (hes : ∀ e ∈ es, e.isNullTask = false) :
    (es.filterMap event_type.hookCall?).length = es.length := by
  induction es with
  | nil => rfl
  | cons e t ih =>
    have ht := ih (fun x hx => hes x (List.mem_cons_of_mem e hx))
    have he := hes e (List.mem_cons_self e t)
    cases e with
    | nullTask => simp [event_type.isNullTask] at he
    | onTick => simp [event_type.hookCall?, List.filterMap_cons, ht]
    | onBar k => simp [event_type.hookCall?, List.filterMap_cons, ht]

/-- The loop on a state whose flag is false returns at once, the queue untouched. -/
theorem eventLoop_not_running (hooks : Hooks) (q : List event_type) (s : StrategyBase)
    (h : s.ms_keep_running = false) :
    StrategyBase.eventLoop hooks q s = LoopResult.returned { s with m_event_queue := q } := by
  cases q <;> simp [StrategyBase.eventLoop, h]

theorem eventLoop_cons_task (hooks : Hooks) (task : event_type) (queue : List event_type)
    (s : StrategyBase) (hrun : s.ms_keep_running = true) (ht : task.isNullTask = false) :
    StrategyBase.eventLoop hooks (task :: queue) s =
      StrategyBase.eventLoop hooks queue (task.call hooks { s with m_event_queue := queue }) := by
  rw [StrategyBase.eventLoop]
  simp only [hrun, ht, if_true]
  rfl

theorem eventLoop_cons_null (hooks : Hooks) (queue : List event_type)
    (s : StrategyBase) (hrun : s.ms_keep_running = true) :
    StrategyBase.eventLoop hooks (event_type.nullTask :: queue) s =
      LoopResult.returned (s.stopped queue) := by
  rw [StrategyBase.eventLoop]
  simp only [hrun, if_true, event_type.isNullTask]
  rw [eventLoop_not_running hooks queue _ rfl]
  rfl

/-- The loop on a queue es, null task, rest: the tasks of es are called in order, the
null task is consumed, the flag is cleared and the loop returns with rest queued. -/
theorem eventLoop_sentinel (hooks : Hooks) (es rest : List event_type)
    (hes : ∀ e ∈ es, e.isNullTask = false) (s : StrategyBase)
    (hrun : s.ms_keep_running = true) :
    StrategyBase.eventLoop hooks (es ++ event_type.nullTask :: rest) s =
      LoopResult.returned ((StrategyBase.callAll hooks es s).stopped rest) := by
  induction es generalizing s with
  | nil => exact eventLoop_cons_null hooks rest s hrun
  | cons e t ih =>
    have he := hes e (List.mem_cons_self e t)
    rw [List.cons_append, eventLoop_cons_task hooks e _ s hrun he, call_set_queue]
    have hr : ({ e.call hooks s with
        m_event_queue := t ++ event_type.nullTask :: rest } : StrategyBase).ms_keep_running =
        true := by
      show (e.call hooks s).ms_keep_running = true
      rw [call_keep_running, hrun]
    rw [ih (fun x hx => hes x (List.mem_cons_of_mem e hx)) _ hr, callAll_set_queue]
    rfl

/-- C3: with the flag true and the queue content e1..en, null task, rest (no ei the
null task), _startEventLoop calls e1..en once each in that order, consumes the null
task, sets the flag to false and returns; the tasks of rest are not called and stay
queued. -/
theorem C3_loop_runs_until_sentinel (hooks : Hooks) (s : StrategyBase)
    (es rest : List event_type) (hrun : s.ms_keep_running = true)
    (hq : s.m_event_queue = es ++ event_type.nullTask :: rest)
    (hes : ∀ e ∈ es, e.isNullTask = false) :
    s._startEventLoop hooks =
      LoopResult.returned ((StrategyBase.callAll hooks es s).stopped rest) ∧
    (s._startEventLoop hooks).self.calls = s.calls ++ es.filterMap event_type.hookCall? ∧
    (es.filterMap event_type.hookCall?).length = es.length ∧
    (s._startEventLoop hooks).self.ms_keep_running = false ∧
    (s._startEventLoop hooks).self.m_event_queue = rest := by
  have h : s._startEventLoop hooks =
      LoopResult.returned ((StrategyBase.callAll hooks es s).stopped rest) := by
    unfold StrategyBase._startEventLoop
    rw [hq]
    exact eventLoop_sentinel hooks es rest hes s hrun
  rw [h]
  refine ⟨rfl, ?_, length_hookCalls es hes, rfl, rfl⟩
  show (StrategyBase.callAll hooks es s).calls = _
  exact callAll_calls hooks es s

/-- Witness of C3: the queue Tick, Bar(DAY), null task, Tick. -/
theorem C3_loop_runs_until_sentinel_witness :
    queued._startEventLoop hooksId =
      LoopResult.returned ((StrategyBase.callAll hooksId
        [event_type.onTick, event_type.onBar "DAY"] queued).stopped [event_type.onTick]) ∧
    (queued._startEventLoop hooksId).self.calls =
      queued.calls ++
        [event_type.onTick, event_type.onBar "DAY"].filterMap event_type.hookCall? ∧
    ([event_type.onTick, event_type.onBar "DAY"].filterMap event_type.hookCall?).length =
      [event_type.onTick, event_type.onBar "DAY"].length ∧
    (queued._startEventLoop hooksId).self.ms_keep_running = false ∧
    (queued._startEventLoop hooksId).self.m_event_queue = [event_type.onTick] :=
  C3_loop_runs_until_sentinel hooksId queued [event_type.onTick, event_type.onBar "DAY"]
    [event_type.onTick] rfl rfl (by decide)

/-! ## The startup of run -/

/-- The loop that resolves a code list appends the handles of the codes that resolve,
in the order of the list, and changes no other member. -/
theorem stock_list_fold (sm : StockManager) (codes : List String) (s : StrategyBase) :
    (codes.foldl
      (fun s code =>
        let stk := sm.getStock code
        if !stk.isNull then { s with m_stock_list := s.m_stock_list ++ [stk] } else s)
      s).m_stock_list =
      s.m_stock_list ++ (codes.map sm.getStock).filter (fun stk => !stk.isNull) ∧
    (codes.foldl
      (fun s code =>
        let stk := sm.getStock code
        if !stk.isNull then { s with m_stock_list := s.m_stock_list ++ [stk] } else s)
      s).m_ref_last_time = s.m_ref_last_time := by
  induction codes generalizing s with
  | nil => simp
  | cons c t ih =>
    simp only [List.foldl_cons, List.map_cons]
    cases hn : (sm.getStock c).isNull with
    | true =>
      simp only [Bool.not_true, Bool.false_eq_true, if_false]
      have h := ih s
      refine ⟨?_, h.2⟩
      rw [h.1, List.filter_cons]
      simp [hn]
    | false =>
      simp only [Bool.not_false, if_true]
      have h := ih { s with m_stock_list := s.m_stock_list ++ [sm.getStock c] }
      refine ⟨?_, h.2⟩
      rw [h.1, List.filter_cons]
      simp [hn]

theorem run_stock_list_spec (sm : StockManager) (s : StrategyBase) :
    (s.run_stock_list sm).m_stock_list =
      s.m_stock_list ++ (s.getStockCodeList.map sm.getStock).filter (fun stk => !stk.isNull) ∧
    (s.run_stock_list sm).m_ref_last_time = s.m_ref_last_time :=
  stock_list_fold sm s.getStockCodeList s

/-- One turn of the baseline loop of run sets the entry of the timeframe to the last
timestamp of its series, or to the null Datetime when the series is empty. -/
theorem ref_last_time_step (sm : StockManager) (ref : Stock) (s : StrategyBase) (k : KType) :
    (s.run_ref_last_time_ktype sm ref k).m_stock_list = s.m_stock_list ∧
    (s.run_ref_last_time_ktype sm ref k).m_ref_last_time =
      Map.set s.m_ref_last_time k ((ref.lastDatetime sm k).getD Datetime.null) := by
  unfold StrategyBase.run_ref_last_time_ktype Stock.getKRecordList
  cases hl : ref.lastDatetime sm k with
  | none =>
    have h := (lastDatetime_eq_none sm ref k).1 hl
    simp [h]
  | some d =>
    have h := lastDatetime_eq_some sm ref k d hl
    unfold Stock.getCount Stock.getKRecord at h
    simp only [gt_iff_lt, h.1, if_true, h.2, Option.getD_some, and_self]

theorem ref_last_time_fold (sm : StockManager) (ref : Stock) (l : List KType)
    (s : StrategyBase) (kt : KType) :
    (l.foldl (StrategyBase.run_ref_last_time_ktype sm ref) s).m_stock_list = s.m_stock_list ∧
    (l.foldl (StrategyBase.run_ref_last_time_ktype sm ref) s).m_ref_last_time kt =
      if kt ∈ l then some ((ref.lastDatetime sm kt).getD Datetime.null)
      else s.m_ref_last_time kt := by
  induction l generalizing s with
  | nil => simp
  | cons k t ih =>
    simp only [List.foldl_cons]
    have hs := ref_last_time_step sm ref s k
    have h := ih (s.run_ref_last_time_ktype sm ref k)
    refine ⟨h.1.trans hs.1, ?_⟩
    rw [h.2, hs.2]
    by_cases hkt : kt ∈ t
    · simp [hkt]
    · by_cases hk : kt = k
      · simp [hk, Map.set]
      · simp [hkt, hk, Map.set]

/-- When the configuration part succeeds, the startup reaches the call of
_startEventLoop. -/
theorem run_startup_ok (env : Env) (hooks : Hooks) (self : StrategyBase) (p : RunParams)
    (h : (self.init hooks).run_config env = Except.ok p) :
    self.run_startup env hooks =
      StartupResult.ready
        (env.init_sm p.baseParam p.blockParam p.kdataParam p.preloadParam p.hkuParam
          (self.init hooks).m_context)
        (((self.init hooks).run_stock_list
          (env.init_sm p.baseParam p.blockParam p.kdataParam p.preloadParam p.hkuParam
            (self.init hooks).m_context)).run_ref_last_time
          (env.init_sm p.baseParam p.blockParam p.kdataParam p.preloadParam p.hkuParam
            (self.init hooks).m_context) (self.init hooks).run_ktype_list) := by
  unfold StrategyBase.run_startup
  simp only [h]

/-- When the startup reaches the call of _startEventLoop, the state is the one built
by the two loops of run on the registry. -/
theorem run_startup_ready (env : Env) (hooks : Hooks) (self : StrategyBase)
    (sm : StockManager) (s : StrategyBase)
    (h : self.run_startup env hooks = StartupResult.ready sm s) :
    s = ((self.init hooks).run_stock_list sm).run_ref_last_time sm
      (self.init hooks).run_ktype_list := by
  unfold StrategyBase.run_startup at h
  simp only [] at h
  split at h
  · cases h
  · cases h
  · injection h with h1 h2
    rw [← h2, ← h1]

theorem run_ktype_list_eq (s : StrategyBase) :
    s.run_ktype_list = if s.getKTypeList = [] then [KQuery.DAY] else s.getKTypeList := by
  unfold StrategyBase.run_ktype_list StrategyBase.getKTypeList
  cases h : s.m_context.getKTypeList <;> simp

theorem finishAll_nil (cycles : List (StockManager × Datetime)) (s : StrategyBase)
    (hU : s.m_stock_list = []) : s.finishAll cycles = s := by
  induction cycles with
  | nil => rfl
  | cons c t ih =>
    simp only [StrategyBase.finishAll, List.foldl_cons] at ih ⊢
    rw [finish_nil c.1 s c.2 hU]
    exact ih

/-! ## Claims on run -/

/-- Counterexample to C2 as stated: after a startup with an empty universe, a
finishReceivedSpot call enqueues nothing, so no Tick-Event either. -/
theorem C2_counterexample :
    (fresh [] ["DAY"]).run_startup envA hooksId = StartupResult.ready (smA [1]) startedEmpty ∧
    startedEmpty.m_stock_list = [] ∧
    (startedEmpty.finishReceivedSpot (smA [1]) none).m_event_queue = [] ∧
    (startedEmpty.finishReceivedSpot (smA [1]) none).tickEvents = 0 :=
  ⟨rfl, by decide, by decide, by decide⟩

/-- C2 (amended): when the universe of a fresh runner is empty after startup, the
baseline map is empty, and every finishReceivedSpot call returns at once: it enqueues
no event at all (neither a Tick-Event nor a Bar-Event) and leaves the state as it
was. -/
theorem C2_empty_universe_enqueues_nothing (env : Env) (hooks : Hooks) (self : StrategyBase)
    (sm : StockManager) (s : StrategyBase) (hfresh : self.m_ref_last_time = Map.empty)
    (hstart : self.run_startup env hooks = StartupResult.ready sm s)
    (hU : s.m_stock_list = []) :
    (∀ kt, s.m_ref_last_time kt = none) ∧
    (∀ sm1 rev, s.finishReceivedSpot sm1 rev = s) ∧
    (∀ sm1 rev, (s.finishReceivedSpot sm1 rev).m_event_queue = s.m_event_queue) ∧
    (∀ cycles, s.finishAll cycles = s) := by
  have hs := run_startup_ready env hooks self sm s hstart
  have hb : s.m_ref_last_time = Map.empty := by
    cases hl : ((self.init hooks).run_stock_list sm).m_stock_list with
    | nil =>
      rw [hs]
      unfold StrategyBase.run_ref_last_time
      rw [hl]
      simp only []
      rw [(run_stock_list_spec sm (self.init hooks)).2]
      exact hfresh
    | cons ref rest =>
      have h := (ref_last_time_fold sm ref (self.init hooks).run_ktype_list
        ((self.init hooks).run_stock_list sm) "").1
      have h2 : s.m_stock_list = ref :: rest := by
        rw [hs]
        unfold StrategyBase.run_ref_last_time
        rw [hl]
        simp only []
        rw [h, hl]
      rw [hU] at h2
      cases h2
  refine ⟨fun kt => by rw [hb]; rfl, fun sm1 rev => finish_nil sm1 s rev hU,
    fun sm1 rev => by rw [finish_nil sm1 s rev hU], fun cycles => finishAll_nil cycles s hU⟩

/-- Witness of C2 (amended): a fresh runner without codes. -/
theorem C2_empty_universe_enqueues_nothing_witness :
    (∀ kt, startedEmpty.m_ref_last_time kt = none) ∧
    (∀ sm1 rev, startedEmpty.finishReceivedSpot sm1 rev = startedEmpty) ∧
    (∀ sm1 rev, (startedEmpty.finishReceivedSpot sm1 rev).m_event_queue =
      startedEmpty.m_event_queue) ∧
    (∀ cycles, startedEmpty.finishAll cycles = startedEmpty) :=
  C2_empty_universe_enqueues_nothing envA hooksId (fresh [] ["DAY"]) (smA [1]) startedEmpty
    rfl rfl rfl

/-- Counterexample to C4 as stated: on a configuration without the section baseinfo
run exits with code 1, and the init hook has been invoked by then. -/
theorem C4_counterexample :
    iniNoBaseinfo.hasSection "baseinfo" = false ∧
    ((fresh [] []).run envNoBaseinfo hooksId).self.calls = [HookCall.init] ∧
    HookCall.init ∈ ((fresh [] []).run envNoBaseinfo hooksId).self.calls := by
  decide

/-- C4 (amended): when the configuration is read, the two lookups in the section hikyuu
return, and there is no section baseinfo, run terminates the process with exit code 1
before the consumer loop is entered; the init hook has been invoked once (it is the
first step of run), and no onTick or onBar hook has been invoked. -/
theorem C4_missing_baseinfo_exits (env : Env) (hooks : Hooks) (self : StrategyBase)
    (config : IniParser) (tmpdir datadir : String)
    (hread : env.read self.m_config_file = Except.ok config)
    (htmp : config.get "hikyuu" "tmpdir" "." = Except.ok tmpdir)
    (hdata : config.get "hikyuu" "datadir" "." = Except.ok datadir)
    (hno : config.hasSection "baseinfo" = false) :
    self.run env hooks = RunOutcome.exited 1 (self.init hooks) ∧
    (self.run env hooks).self.calls = self.calls ++ [HookCall.init] ∧
    (self.run env hooks).self.m_event_queue = self.m_event_queue := by
  have hcfg : (self.init hooks).run_config env = Except.error (Abort.exit 1) := by
    unfold StrategyBase.run_config
    have hr : env.read (self.init hooks).m_config_file = Except.ok config := hread
    rw [hr]
    simp [htmp, hdata, hno, uncaught, bind, Except.bind]
  have hrun : self.run env hooks = RunOutcome.exited 1 (self.init hooks) := by
    unfold StrategyBase.run StrategyBase.run_startup
    simp only [hcfg]
  rw [hrun]
  exact ⟨rfl, rfl, rfl⟩

/-- Witness of C4 (amended): a fresh runner on a configuration without baseinfo. -/
theorem C4_missing_baseinfo_exits_witness :
    (fresh [] []).run envNoBaseinfo hooksId =
      RunOutcome.exited 1 ((fresh [] []).init hooksId) ∧
    ((fresh [] []).run envNoBaseinfo hooksId).self.calls =
      (fresh [] []).calls ++ [HookCall.init] ∧
    ((fresh [] []).run envNoBaseinfo hooksId).self.m_event_queue =
      (fresh [] []).m_event_queue :=
  C4_missing_baseinfo_exits envNoBaseinfo hooksId (fresh [] []) iniNoBaseinfo "." "."
    rfl rfl rfl (by decide)

/-- C7 (the code at the failing input): with an empty configured timeframe list and
the universe [A, B], the startup computes the baseline 1 for DAY; a later call that
sees the daily series [1, 2] enqueues the Tick-Event only and leaves the baseline at
1, because getKTypeList is still empty. With the list [DAY] configured, the same call
enqueues the Bar-Event of DAY. -/
theorem C7_default_daily_is_not_checked :
    (fresh ["sh000001", "sz000001"] []).run_startup envA hooksId =
      StartupResult.ready (smA [1]) (started [] 1) ∧
    (started [] 1).m_ref_last_time "DAY" = some (some 1) ∧
    stkA.lastDatetime (smA [1, 2]) "DAY" = some (some 2) ∧
    ((started [] 1).finishReceivedSpot (smA [1, 2]) none).m_event_queue =
      [event_type.onTick] ∧
    ((started [] 1).finishReceivedSpot (smA [1, 2]) none).m_ref_last_time "DAY" =
      some (some 1) ∧
    ((started ["DAY"] 1).finishReceivedSpot (smA [1, 2]) none).m_event_queue =
      [event_type.onTick, event_type.onBar "DAY"] :=
  ⟨rfl, by decide, by decide, by decide, by decide, by decide⟩

/-- C8: after the startup of a fresh runner with a non-empty universe, the baseline map
has an entry exactly for the timeframes of the resolved list (the configured list, or
DAY alone when that list is empty); the entry of a timeframe is the timestamp of the
last bar of the series of the first resolved instrument, or the null Datetime when
that series is empty. -/
theorem C8_baseline_after_startup (env : Env) (hooks : Hooks) (self : StrategyBase)
    (sm : StockManager) (s : StrategyBase) (hfresh : self.m_ref_last_time = Map.empty)
    (hempty : self.m_stock_list = [])
    (hstart : self.run_startup env hooks = StartupResult.ready sm s)
    (ref : Stock) (rest : List Stock) (hU : s.m_stock_list = ref :: rest) (kt : KType) :
    ((self.init hooks).getStockCodeList.map sm.getStock).find? (fun stk => !stk.isNull) =
      some ref ∧
    s.m_ref_last_time kt =
      if kt ∈ (if (self.init hooks).getKTypeList = [] then [KQuery.DAY]
          else (self.init hooks).getKTypeList)
      then some ((ref.lastDatetime sm kt).getD Datetime.null)
      else none := by
  have hs := run_startup_ready env hooks self sm s hstart
  have h1 := run_stock_list_spec sm (self.init hooks)
  have hi : (self.init hooks).m_stock_list = [] := hempty
  rw [hi, List.nil_append] at h1
  cases hl : ((self.init hooks).run_stock_list sm).m_stock_list with
  | nil =>
    have h2 : s.m_stock_list = [] := by
      rw [hs]
      unfold StrategyBase.run_ref_last_time
      rw [hl]
      simp only []
      exact hl
    rw [hU] at h2
    cases h2
  | cons r0 t0 =>
    have hf := ref_last_time_fold sm r0 (self.init hooks).run_ktype_list
      ((self.init hooks).run_stock_list sm) kt
    have hsf : s = (self.init hooks).run_ktype_list.foldl
        (StrategyBase.run_ref_last_time_ktype sm r0) ((self.init hooks).run_stock_list sm) := by
      rw [hs]
      unfold StrategyBase.run_ref_last_time
      rw [hl]
    rw [← hsf] at hf
    have hrr : r0 :: t0 = ref :: rest := by rw [← hl, ← hf.1, hU]
    injection hrr with hr ht
    subst hr
    constructor
    · rw [← List.filter_head?, ← h1.1, hl]
      rfl
    · rw [hf.2, h1.2, run_ktype_list_eq]
      have he : (self.init hooks).m_ref_last_time kt = none := by
        show self.m_ref_last_time kt = none
        rw [hfresh]
        rfl
      rw [he]

/-- Witness of C8: codes sh000001 and sz000001, no configured timeframe, daily series
[1] of sh000001. -/
theorem C8_baseline_after_startup_witness :
    (((fresh ["sh000001", "sz000001"] []).init hooksId).getStockCodeList.map
        (smA [1]).getStock).find? (fun stk => !stk.isNull) = some stkA ∧
    (started [] 1).m_ref_last_time "DAY" =
      if "DAY" ∈ (if ((fresh ["sh000001", "sz000001"] []).init hooksId).getKTypeList = []
          then [KQuery.DAY]
          else ((fresh ["sh000001", "sz000001"] []).init hooksId).getKTypeList)
      then some ((stkA.lastDatetime (smA [1]) "DAY").getD Datetime.null)
      else none :=
  C8_baseline_after_startup envA hooksId (fresh ["sh000001", "sz000001"] []) (smA [1])
    (started [] 1) rfl rfl rfl stkA [stkB] rfl "DAY"

/-- C9: for every code list, once the configuration part of run has succeeded, the
startup of a runner with an empty universe reaches the call of _startEventLoop; the
universe is then the list of the handles of the codes that resolve, in the order of
the code list; it is empty when no code resolves; and its first element, the reference
instrument, is the handle of the first code that resolves. -/
theorem C9_universe_resolution (env : Env) (hooks : Hooks) (self : StrategyBase)
    (p : RunParams) (hempty : self.m_stock_list = [])
    (hcfg : (self.init hooks).run_config env = Except.ok p) :
    ∃ sm s, self.run_startup env hooks = StartupResult.ready sm s ∧
      s.m_stock_list =
        ((self.init hooks).getStockCodeList.map sm.getStock).filter (fun stk => !stk.isNull) ∧
      ((∀ code ∈ (self.init hooks).getStockCodeList, (sm.getStock code).isNull = true) →
        s.m_stock_list = []) ∧
      s.m_stock_list.head? =
        ((self.init hooks).getStockCodeList.map sm.getStock).find? (fun stk => !stk.isNull) := by
  refine ⟨_, _, run_startup_ok env hooks self p hcfg, ?_⟩
  generalize env.init_sm p.baseParam p.blockParam p.kdataParam p.preloadParam p.hkuParam
    (self.init hooks).m_context = sm
  have h1 := run_stock_list_spec sm (self.init hooks)
  have hi : (self.init hooks).m_stock_list = [] := hempty
  rw [hi, List.nil_append] at h1
  have h2 : (((self.init hooks).run_stock_list sm).run_ref_last_time sm
      (self.init hooks).run_ktype_list).m_stock_list =
      ((self.init hooks).run_stock_list sm).m_stock_list := by
    unfold StrategyBase.run_ref_last_time
    cases hl : ((self.init hooks).run_stock_list sm).m_stock_list with
    | nil => simp only []; exact hl
    | cons r0 t0 =>
      simp only []
      rw [(ref_last_time_fold sm r0 _ _ "").1, hl]
  rw [h2, h1.1]
  refine ⟨rfl, ?_, List.filter_head? _ _⟩
  intro hall
  rw [List.filter_eq_nil_iff]
  intro stk hstk
  obtain ⟨code, hc, hcs⟩ := List.mem_map.1 hstk
  rw [← hcs, hall code hc]
  simp

/-- Witness of C9: the codes bad, sh000001 and sz000001, of which the first does not
resolve. -/
theorem C9_universe_resolution_witness :
    ∃ sm s, (fresh ["bad", "sh000001", "sz000001"] []).run_startup envA hooksId =
        StartupResult.ready sm s ∧
      s.m_stock_list =
        (((fresh ["bad", "sh000001", "sz000001"] []).init hooksId).getStockCodeList.map
          sm.getStock).filter (fun stk => !stk.isNull) ∧
      ((∀ code ∈ ((fresh ["bad", "sh000001", "sz000001"] []).init hooksId).getStockCodeList,
          (sm.getStock code).isNull = true) → s.m_stock_list = []) ∧
      s.m_stock_list.head? =
        (((fresh ["bad", "sh000001", "sz000001"] []).init hooksId).getStockCodeList.map
          sm.getStock).find? (fun stk => !stk.isNull) :=
  C9_universe_resolution envA hooksId (fresh ["bad", "sh000001", "sz000001"] []) paramsA
    rfl rfl

end hku
